import Mathlib

/-!
Shallow embedding of the `graphql` Go package (a minimal GraphQL-over-HTTP
client) in Lean 4.

The embedding follows `src/graphql.go`:

* JSON values are modelled by the inductive `Json`; Go `map[string]any`
  variable maps are association lists wrapped in `Option` (Go `nil` maps are
  `none`, which `encoding/json` serializes as `null`).
* `http.Header` is an association list from canonical key to the ordered list
  of values; `headerSet` and `headerAdd` mirror `Header.Set` / `Header.Add`.
* The injected HTTP transport (`http.Client.Do`) is a parameter mapping the
  outgoing call to either a transport error or a response.  The response body
  together with the standard-library `json.Decode` step is abstracted as an
  `Except` value: either a decode failure (carrying the parse error text) or a
  decoded `graphResponse` envelope.  JSON (de)serialization itself is Go
  standard library code, not code of this repository, hence abstracted.
* `Run`, `runWithJSON` and `runWithPostFields` return a `RunOutcome` that
  records the returned error (if any), the HTTP call that was issued (if any)
  and the value written into the caller-supplied destination (if any), so the
  theorems can speak about network effects and destination population.
-/

namespace Graphql

/-- JSON values, for variable bindings and the envelope `data` payload. -/
inductive Json where
  | null
  | bool (b : Bool)
  | num (n : Int)
  | str (s : String)
  | arr (elems : List Json)
  | obj (fields : List (String × Json))
deriving Repr

/-- `graphErr` from the source: one entry of the envelope error array. -/
structure graphErr where
  Message : String
deriving Repr

/-- `func (e graphErr) Error() string { return "graphql: " + e.Message }` -/
def graphErr.Error (e : graphErr) : String :=
  "graphql: " ++ e.Message

/-- `graphResponse` from the source: the decoded response envelope.  `Data`
is the JSON payload that `json.Decode` binds to the destination; `none`
models an absent or null `data` key. -/
structure graphResponse where
  Data : Option Json
  Errors : List graphErr
deriving Repr

/-- `File` from the source.  The `io.Reader` is modelled by the full byte
content it yields when read to completion (`R`). -/
structure File where
  Field : String
  Name : String
  R : String
deriving Repr

/-- Go map assignment `m[k] = v` on a map modelled as an association list
with unique keys: overwrite the value when the key is present, otherwise
add the binding. -/
def mapInsert : List (String × Json) → String → Json → List (String × Json)
  | [], k, v => [(k, v)]
  | p :: rest, k, v =>
      if p.1 = k then (k, v) :: rest else p :: mapInsert rest k v

/-- `Request` from the source: query string, lazily-allocated variable map
(`none` models the Go nil map), file list and header collection. -/
structure Request where
  q : String
  vars : Option (List (String × Json))
  files : List File
  Header : List (String × List String)
deriving Repr

/-- `NewRequest` from the source. -/
def NewRequest (q : String) : Request :=
  { q := q, vars := none, files := [], Header := [] }

/-- `Request.Var` from the source: lazily allocates the variable map, then
sets the key, overwriting any prior value. -/
def Request.Var (req : Request) (key : String) (value : Json) : Request :=
  { req with vars := some (mapInsert (req.vars.getD []) key value) }

/-- `Request.File` from the source: appends a file attachment. -/
def Request.File (req : Request) (fieldname filename : String) (r : String) :
    Request :=
  { req with files := req.files ++ [⟨fieldname, filename, r⟩] }

/-- `Client` from the source (the injected transport and the log sink are
passed separately where needed). -/
structure Client where
  endpoint : String
  useMultipartForm : Bool
deriving Repr

/-- A context/cancellation token: whether it is already done, and the error
`ctx.Err()` reports in that case. -/
structure Ctx where
  done : Bool
  errMsg : String
deriving Repr

/-- `http.Header.Set`: replaces the existing values of the key with the
single given value (the header map has unique keys). -/
def headerSet : List (String × List String) → String → String →
    List (String × List String)
  | [], k, v => [(k, [v])]
  | p :: rest, k, v =>
      if p.1 = k then (k, [v]) :: rest else p :: headerSet rest k v

/-- `http.Header.Add`: appends the value to the existing values of the key,
creating the entry when absent. -/
def headerAdd : List (String × List String) → String → String →
    List (String × List String)
  | [], k, v => [(k, [v])]
  | p :: rest, k, v =>
      if p.1 = k then (p.1, p.2 ++ [v]) :: rest else p :: headerAdd rest k v

/-- The ordered values stored under a key (empty when absent), as read by
`http.Header` accessors (`Header.Get` returns the head). -/
def headerValues (h : List (String × List String)) (k : String) :
    List String :=
  ((h.find? (fun p => p.1 = k)).map (fun p => p.2)).getD []

/-- The header-merge loop shared by both encoding paths:
`for key, values := range req.Header { for _, value := range values {
r.Header.Add(key, value) } }`. -/
def mergeHeaders (base reqH : List (String × List String)) :
    List (String × List String) :=
  reqH.foldl (fun acc p => p.2.foldl (fun acc2 v => headerAdd acc2 p.1 v) acc)
    base

/-- Serialization of the Go variable map field: a nil map (`none`)
serializes as JSON `null`, a non-nil map as a JSON object. -/
def varsToJson : Option (List (String × Json)) → Json
  | none => Json.null
  | some m => Json.obj m

/-- The JSON-mode request body from `runWithJSON`:
`{"query": <q>, "variables": <vars-or-null>}`. -/
def jsonRequestBody (req : Request) : Json :=
  Json.obj [("query", Json.str req.q), ("variables", varsToJson req.vars)]

/-- One part of a multipart form body, mirroring the three writer operations
used by `runWithPostFields`: `WriteField` (raw text), `CreateFormField`
followed by a JSON encode, and `CreateFormFile` followed by an `io.Copy` of
the attachment stream. -/
inductive Part where
  | textField (name value : String)
  | jsonField (name : String) (value : Json)
  | filePart (field filename content : String)
deriving Repr

/-- The multipart form body from `runWithPostFields`: the `query` field, the
`variables` field when `len(req.vars) > 0`, then one file part per
attachment in order. -/
def multipartRequestBody (req : Request) : List Part :=
  [Part.textField "query" req.q]
    ++ (if (req.vars.getD []).length > 0 then
          [Part.jsonField "variables" (Json.obj (req.vars.getD []))]
        else [])
    ++ req.files.map (fun f => Part.filePart f.Field f.Name f.R)

/-- The body of an outgoing HTTP request: a JSON document or a multipart
form. -/
inductive BodyKind where
  | jsonBody (j : Json)
  | multipartBody (parts : List Part)
deriving Repr

/-- An outgoing HTTP POST as handed to the transport. -/
structure HttpCall where
  url : String
  header : List (String × List String)
  body : BodyKind
deriving Repr

/-- An HTTP response: the status code, and the result of buffering the body
and decoding it as the envelope (`json.Decode`, abstracted: a parse error
message or the decoded `graphResponse`). -/
structure HttpResponse where
  statusCode : Nat
  envelope : Except String graphResponse
deriving Repr

/-- The injected transport: `http.Client.Do`, returning a transport error or
a response. -/
def Transport : Type :=
  HttpCall → Except String HttpResponse

/-- The errors `Run` can return, by provenance. -/
inductive RunError where
  | ctxDone (msg : String)
  | config (msg : String)
  | transport (msg : String)
  | statusCode (code : Nat)
  | decode (msg : String)
  | server (e : graphErr)
deriving Repr

/-- The user-visible message of each error, following the source format
strings. -/
def RunError.message : RunError → String
  | .ctxDone m => m
  | .config m => m
  | .transport m => m
  | .statusCode c =>
      "graphql: server returned a non-200 status code: " ++ toString c
  | .decode m => "decoding response: " ++ m
  | .server e => e.Error

/-- What one `Run` invocation did: the returned error (`none` is success),
the HTTP call issued to the transport (`none` when no network call was
made), and the value decoded into the caller destination (`none` when the
destination was not written). -/
structure RunOutcome where
  result : Option RunError
  issuedCall : Option HttpCall
  destWritten : Option Json
deriving Repr

/-- The response-handling tail shared verbatim by both paths (lines 136-146
and 206-216 of the source): on decode failure consult the status code; on
decode success return the first envelope error, if any. -/
def handleEnvelope (call : HttpCall) (hasDest : Bool) (res : HttpResponse) :
    RunOutcome :=
  match res.envelope with
  | .error e =>
      if res.statusCode ≠ 200 then
        ⟨some (.statusCode res.statusCode), some call, none⟩
      else
        ⟨some (.decode e), some call, none⟩
  | .ok gr =>
      let destW := if hasDest then gr.Data else none
      match gr.Errors with
      | e :: _ => ⟨some (.server e), some call, destW⟩
      | [] => ⟨none, some call, destW⟩

/-- The headers the JSON path sets before merging the request headers:
Content-Type and Accept. -/
def jsonBaseHeader : List (String × List String) :=
  headerSet (headerSet [] "Content-Type" "application/json; charset=utf-8")
    "Accept" "application/json; charset=utf-8"

/-- The outgoing HTTP POST built by `runWithJSON`: the client endpoint, the
transport headers merged additively with the request headers, and the JSON
body. -/
def jsonCall (c : Client) (req : Request) : HttpCall :=
  ⟨c.endpoint, mergeHeaders jsonBaseHeader req.Header,
    .jsonBody (jsonRequestBody req)⟩

/-- `runWithJSON` from the source: build the JSON body, set Content-Type and
Accept, merge the request headers additively, perform the call, and handle
the response. -/
def runWithJSON (c : Client) (req : Request) (hasDest : Bool)
    (transport : Transport) : RunOutcome :=
  match transport (jsonCall c req) with
  | .error e => ⟨some (.transport e), some (jsonCall c req), none⟩
  | .ok res => handleEnvelope (jsonCall c req) hasDest res

/-- The Content-Type produced by `writer.FormDataContentType()`; the random
boundary is abstracted by a fixed representative, no theorem depends on it. -/
def formDataContentType : String :=
  "multipart/form-data; boundary=b"

/-- The headers the multipart path sets before merging the request headers:
the multipart Content-Type and Accept. -/
def multipartBaseHeader : List (String × List String) :=
  headerSet (headerSet [] "Content-Type" formDataContentType)
    "Accept" "application/json; charset=utf-8"

/-- The outgoing HTTP POST built by `runWithPostFields`: the client
endpoint, the transport headers merged additively with the request headers,
and the multipart body. -/
def multipartCall (c : Client) (req : Request) : HttpCall :=
  ⟨c.endpoint, mergeHeaders multipartBaseHeader req.Header,
    .multipartBody (multipartRequestBody req)⟩

/-- `runWithPostFields` from the source: build the multipart body, set the
multipart Content-Type and Accept, merge the request headers additively,
perform the call, and handle the response. -/
def runWithPostFields (c : Client) (req : Request) (hasDest : Bool)
    (transport : Transport) : RunOutcome :=
  match transport (multipartCall c req) with
  | .error e => ⟨some (.transport e), some (multipartCall c req), none⟩
  | .ok res => handleEnvelope (multipartCall c req) hasDest res

/-- `Run` from the source: fail fast on an already-done context, then on
files without multipart mode, then dispatch on the encoding mode. -/
def Run (c : Client) (ctx : Ctx) (req : Request) (hasDest : Bool)
    (transport : Transport) : RunOutcome :=
  if ctx.done then
    ⟨some (.ctxDone ctx.errMsg), none, none⟩
  else if req.files.length > 0 ∧ c.useMultipartForm = false then
    ⟨some (.config "cannot send files with PostFields option"), none, none⟩
  else if c.useMultipartForm then
    runWithPostFields c req hasDest transport
  else
    runWithJSON c req hasDest transport

/-! Helper notions used to state the claims: requests built through the
public API, and the last-write-wins content of a Go map after a sequence of
assignments. -/

/-- Apply a sequence of `Request.Var` calls. -/
def applyVars (req : Request) (vs : List (String × Json)) : Request :=
  vs.foldl (fun r p => r.Var p.1 p.2) req

/-- Apply a sequence of `Request.File` calls. -/
def applyFiles (req : Request) (fs : List File) : Request :=
  fs.foldl (fun r f => r.File f.Field f.Name f.R) req

/-- The variable map resulting from a sequence of assignments, starting
from the empty map. -/
def buildVars (vs : List (String × Json)) : List (String × Json) :=
  vs.foldl (fun m p => mapInsert m p.1 p.2) []

/-- The last value assigned to a key by a sequence of assignments (Go map
semantics: later assignments overwrite earlier ones). -/
def lastAssignment : List (String × Json) → String → Option Json
  | [], _ => none
  | p :: vs, k =>
      match lastAssignment vs k with
      | some v => some v
      | none => if p.1 = k then some p.2 else none

/-- The association list has pairwise distinct keys (invariant of Go maps). -/
def keysNodup (m : List (String × Json)) : Prop :=
  (m.map Prod.fst).Nodup

/-- All values the header-merge loop adds under a key, in order. -/
def addedValues (reqH : List (String × List String)) (k : String) :
    List String :=
  ((reqH.filter (fun p => p.1 = k)).map (fun p => p.2)).flatten

/-! Lemmas about the Go-map model. -/

theorem mapInsert_ne_nil (m : List (String × Json)) (k : String) (v : Json) :
    mapInsert m k v ≠ [] := by
  cases m with
  | nil => simp [mapInsert]
  | cons p rest =>
      by_cases h : p.1 = k <;> simp [mapInsert, h]

theorem mapInsert_keys (m : List (String × Json)) (k : String) (v : Json) :
    (mapInsert m k v).map Prod.fst =
      if k ∈ m.map Prod.fst then m.map Prod.fst
      else m.map Prod.fst ++ [k] := by
  induction m with
  | nil => simp [mapInsert]
  | cons p rest ih =>
      by_cases h : p.1 = k
      · simp [mapInsert, h]
      · have hne : ¬k = p.1 := fun hh => h hh.symm
        by_cases hmem : k ∈ rest.map Prod.fst <;>
          simp [mapInsert, h, hne, hmem, ih]

theorem keysNodup_mapInsert (m : List (String × Json)) (k : String)
    (v : Json) (hm : keysNodup m) : keysNodup (mapInsert m k v) := by
  unfold keysNodup at hm ⊢
  rw [mapInsert_keys]
  by_cases hmem : k ∈ m.map Prod.fst
  · simpa [hmem] using hm
  · simpa [hmem, List.nodup_append] using hm

theorem mem_mapInsert_ne (m : List (String × Json)) (k k2 : String)
    (v v2 : Json) (hk : k ≠ k2) :
    ((k, v) ∈ mapInsert m k2 v2) ↔ (k, v) ∈ m := by
  induction m with
  | nil => simp [mapInsert, hk]
  | cons p rest ih =>
      by_cases hp : p.1 = k2
      · simp only [mapInsert, hp, if_true, List.mem_cons]
        constructor
        · rintro (h | h)
          · exact absurd (congrArg Prod.fst h) hk
          · right; exact h
        · rintro (h | h)
          · exact absurd ((congrArg Prod.fst h).trans hp) hk
          · right; exact h
      · simp only [mapInsert, hp, if_false, List.mem_cons, ih]

theorem mem_mapInsert_self (m : List (String × Json)) (k : String)
    (v v2 : Json) (hm : keysNodup m) :
    ((k, v) ∈ mapInsert m k v2) ↔ v = v2 := by
  induction m with
  | nil => simp [mapInsert]
  | cons p rest ih =>
      have hm2 : keysNodup rest := by
        simpa [keysNodup, List.nodup_cons] using
          (List.nodup_cons.mp (by simpa [keysNodup] using hm)).2
      have hm1 : p.1 ∉ rest.map Prod.fst :=
        (List.nodup_cons.mp (by simpa [keysNodup] using hm)).1
      by_cases hp : p.1 = k
      · subst hp
        simp only [mapInsert, if_true, List.mem_cons]
        constructor
        · rintro (h | h)
          · exact ((Prod.mk.injEq ..).mp h).2
          · exact absurd (List.mem_map.mpr ⟨(p.1, v), h, rfl⟩) hm1
        · intro h; left; rw [h]
      · simp only [mapInsert, hp, if_false, List.mem_cons]
        constructor
        · rintro (h | h)
          · exact absurd (congrArg Prod.fst h).symm hp
          · exact (ih hm2).mp h
        · intro h; right; exact (ih hm2).mpr h

theorem mem_foldl_mapInsert (vs : List (String × Json))
    (m : List (String × Json)) (hm : keysNodup m) (k : String) (v : Json) :
    ((k, v) ∈ vs.foldl (fun acc p => mapInsert acc p.1 p.2) m) ↔
      (lastAssignment vs k = some v ∨
        (lastAssignment vs k = none ∧ (k, v) ∈ m)) := by
  induction vs generalizing m with
  | nil => simp [lastAssignment]
  | cons p vs ih =>
      simp only [List.foldl_cons]
      rw [ih _ (keysNodup_mapInsert _ _ _ hm)]
      by_cases hk : k = p.1
      · subst hk
        rw [mem_mapInsert_self _ _ _ _ hm]
        cases hlast : lastAssignment vs p.1 with
        | some w => simp [lastAssignment, hlast]
        | none => simp [lastAssignment, hlast, eq_comm]
      · rw [mem_mapInsert_ne _ _ _ _ _ hk]
        cases hlast : lastAssignment vs k with
        | some w => simp [lastAssignment, hlast]
        | none => simp [lastAssignment, hlast, Ne.symm hk]

theorem mem_buildVars (vs : List (String × Json)) (k : String) (v : Json) :
    ((k, v) ∈ buildVars vs) ↔ lastAssignment vs k = some v := by
  rw [buildVars, mem_foldl_mapInsert vs [] (by simp [keysNodup])]
  simp

theorem foldl_mapInsert_ne_nil (vs : List (String × Json))
    (m : List (String × Json)) (hm : m ≠ []) :
    vs.foldl (fun acc p => mapInsert acc p.1 p.2) m ≠ [] := by
  induction vs generalizing m with
  | nil => exact hm
  | cons p vs ih => exact ih _ (mapInsert_ne_nil _ _ _)

theorem buildVars_ne_nil (vs : List (String × Json)) (h : vs ≠ []) :
    buildVars vs ≠ [] := by
  cases vs with
  | nil => exact absurd rfl h
  | cons p vs =>
      exact foldl_mapInsert_ne_nil vs _ (mapInsert_ne_nil _ _ _)

/-! Lemmas about the header model. -/

theorem headerValues_headerAdd_self (h : List (String × List String))
    (k v : String) :
    headerValues (headerAdd h k v) k = headerValues h k ++ [v] := by
  induction h with
  | nil => simp [headerAdd, headerValues]
  | cons p rest ih =>
      by_cases hp : p.1 = k
      · simp [headerAdd, headerValues, hp]
      · simpa [headerAdd, headerValues, hp] using ih

theorem headerValues_headerAdd_ne (h : List (String × List String))
    (k k2 v : String) (hk : k2 ≠ k) :
    headerValues (headerAdd h k v) k2 = headerValues h k2 := by
  induction h with
  | nil => simp [headerAdd, headerValues, Ne.symm hk]
  | cons p rest ih =>
      by_cases hp : p.1 = k
      · have hp2 : ¬p.1 = k2 := fun hh => hk (hh.symm.trans hp)
        simp [headerAdd, headerValues, hp, hp2, Ne.symm hk]
      · by_cases hp2 : p.1 = k2
        · simp [headerAdd, headerValues, hp, hp2, hk]
        · simpa [headerAdd, headerValues, hp, hp2] using ih

theorem headerValues_foldl_headerAdd (vs : List String)
    (h : List (String × List String)) (key k : String) :
    headerValues (vs.foldl (fun acc v => headerAdd acc key v) h) k =
      headerValues h k ++ (if key = k then vs else []) := by
  induction vs generalizing h with
  | nil => simp
  | cons v vs ih =>
      simp only [List.foldl_cons]
      rw [ih]
      by_cases hk : key = k
      · subst hk
        rw [headerValues_headerAdd_self]
        simp
      · rw [headerValues_headerAdd_ne _ _ _ _ (Ne.symm hk)]
        simp [hk]

theorem headerValues_mergeHeaders (base reqH : List (String × List String))
    (k : String) :
    headerValues (mergeHeaders base reqH) k =
      headerValues base k ++ addedValues reqH k := by
  induction reqH generalizing base with
  | nil => simp [mergeHeaders, addedValues]
  | cons p reqH ih =>
      have hstep :
          mergeHeaders base (p :: reqH) =
            mergeHeaders
              (p.2.foldl (fun acc2 v => headerAdd acc2 p.1 v) base) reqH := by
        simp [mergeHeaders]
      rw [hstep, ih, headerValues_foldl_headerAdd]
      by_cases hp : p.1 = k
      · simp [addedValues, List.filter_cons, hp, List.append_assoc]
      · simp [addedValues, List.filter_cons, hp]

theorem mem_headerValues_addedValues (reqH : List (String × List String))
    (k v : String) (hv : v ∈ headerValues reqH k) :
    v ∈ addedValues reqH k := by
  induction reqH with
  | nil => simp [headerValues] at hv
  | cons p rest ih =>
      by_cases hp : p.1 = k
      · have hv2 : v ∈ p.2 := by
          simpa [headerValues, List.find?_cons, hp] using hv
        simp [addedValues, List.filter_cons, hp]
        left; exact hv2
      · have hv2 : v ∈ headerValues rest k := by
          simpa [headerValues, List.find?_cons, hp] using hv
        simpa [addedValues, List.filter_cons, hp] using ih hv2

/-! Lemmas about requests built through the public API. -/

theorem applyVars_q (r : Request) (vs : List (String × Json)) :
    (applyVars r vs).q = r.q := by
  induction vs generalizing r with
  | nil => rfl
  | cons p vs ih => simpa [applyVars, Request.Var] using ih _

theorem applyVars_files (r : Request) (vs : List (String × Json)) :
    (applyVars r vs).files = r.files := by
  induction vs generalizing r with
  | nil => rfl
  | cons p vs ih => simpa [applyVars, Request.Var] using ih _

theorem applyVars_Header (r : Request) (vs : List (String × Json)) :
    (applyVars r vs).Header = r.Header := by
  induction vs generalizing r with
  | nil => rfl
  | cons p vs ih => simpa [applyVars, Request.Var] using ih _

theorem applyVars_vars_cons (r : Request) (p : String × Json)
    (vs : List (String × Json)) :
    (applyVars r (p :: vs)).vars =
      some ((p :: vs).foldl (fun m q => mapInsert m q.1 q.2)
        (r.vars.getD [])) := by
  induction vs generalizing r p with
  | nil => simp [applyVars, Request.Var]
  | cons q vs ih =>
      have := ih (r.Var p.1 p.2) q
      simpa [applyVars, Request.Var] using this

theorem applyFiles_q (r : Request) (fs : List File) :
    (applyFiles r fs).q = r.q := by
  induction fs generalizing r with
  | nil => rfl
  | cons f fs ih => simpa [applyFiles, Request.File] using ih _

theorem applyFiles_vars (r : Request) (fs : List File) :
    (applyFiles r fs).vars = r.vars := by
  induction fs generalizing r with
  | nil => rfl
  | cons f fs ih => simpa [applyFiles, Request.File] using ih _

theorem applyFiles_Header (r : Request) (fs : List File) :
    (applyFiles r fs).Header = r.Header := by
  induction fs generalizing r with
  | nil => rfl
  | cons f fs ih => simpa [applyFiles, Request.File] using ih _

theorem applyFiles_files (r : Request) (fs : List File) :
    (applyFiles r fs).files = r.files ++ fs := by
  induction fs generalizing r with
  | nil => simp [applyFiles]
  | cons f fs ih =>
      have := ih (r.File f.Field f.Name f.R)
      simp only [applyFiles, List.foldl_cons] at this ⊢
      rw [this]
      simp [Request.File]

/-! Lemmas about the executor pipeline. -/

theorem handleEnvelope_issuedCall (call : HttpCall) (hasDest : Bool)
    (res : HttpResponse) :
    (handleEnvelope call hasDest res).issuedCall = some call := by
  obtain ⟨code, env⟩ := res
  cases env with
  | error e => by_cases h : code ≠ 200 <;> simp [handleEnvelope, h]
  | ok gr => cases herr : gr.Errors <;> simp [handleEnvelope, herr]

theorem runWithJSON_issuedCall (c : Client) (req : Request) (hasDest : Bool)
    (t : Transport) :
    (runWithJSON c req hasDest t).issuedCall = some (jsonCall c req) := by
  rw [runWithJSON]
  cases t (jsonCall c req) with
  | error e => rfl
  | ok res => exact handleEnvelope_issuedCall _ _ _

theorem runWithPostFields_issuedCall (c : Client) (req : Request)
    (hasDest : Bool) (t : Transport) :
    (runWithPostFields c req hasDest t).issuedCall =
      some (multipartCall c req) := by
  rw [runWithPostFields]
  cases t (multipartCall c req) with
  | error e => rfl
  | ok res => exact handleEnvelope_issuedCall _ _ _

theorem Run_dispatch (c : Client) (ctx : Ctx) (req : Request)
    (hasDest : Bool) (t : Transport) (hctx : ctx.done = false)
    (hok : req.files = [] ∨ c.useMultipartForm = true) :
    Run c ctx req hasDest t =
      if c.useMultipartForm then runWithPostFields c req hasDest t
      else runWithJSON c req hasDest t := by
  rcases hok with hfiles | hm
  · simp [Run, hctx, hfiles]
  · simp [Run, hctx, hm]

/-! The claims. -/

/-- C1: for every HTTP response whose body fails to decode as the envelope,
`Run` returns the status-code error (carrying the numeric code) when the
status is not 200, and the decode failure itself when the status is 200;
this holds in both the JSON and the multipart path (the client's
`useMultipartForm` flag is universally quantified). -/
theorem Run_decode_failure_disambiguation (c : Client) (ctx : Ctx)
    (req : Request) (hasDest : Bool) (code : Nat) (e : String)
    (hctx : ctx.done = false)
    (hok : req.files = [] ∨ c.useMultipartForm = true) :
    (Run c ctx req hasDest (fun _ => .ok ⟨code, .error e⟩)).result =
      if code ≠ 200 then some (.statusCode code) else some (.decode e) := by
  rw [Run_dispatch _ _ _ _ _ hctx hok]
  cases hm : c.useMultipartForm <;>
    by_cases hcode : code ≠ 200 <;>
      simp [runWithPostFields, runWithJSON, handleEnvelope, hcode]

/-- C1 witness: a non-200 undecodable response yields the status-code
error at a concrete input. -/
theorem Run_decode_failure_disambiguation_witness :
    (Run ⟨"http://e", false⟩ ⟨false, ""⟩ (NewRequest "q") true
        (fun _ => .ok ⟨500, .error "invalid character"⟩)).result =
      if 500 ≠ 200 then some (.statusCode 500)
      else some (.decode "invalid character") :=
  Run_decode_failure_disambiguation ⟨"http://e", false⟩ ⟨false, ""⟩
    (NewRequest "q") true 500 "invalid character" rfl (Or.inl rfl)

/-- C2: for every response whose envelope decodes with a non-empty error
sequence, `Run` returns exactly the first entry as a server error, and the
error's message is the string "graphql: " followed by that entry's message
field. -/
theorem Run_first_server_error (c : Client) (ctx : Ctx) (req : Request)
    (hasDest : Bool) (code : Nat) (gr : graphResponse) (e0 : graphErr)
    (rest : List graphErr) (hctx : ctx.done = false)
    (hok : req.files = [] ∨ c.useMultipartForm = true)
    (herr : gr.Errors = e0 :: rest) :
    (Run c ctx req hasDest (fun _ => .ok ⟨code, .ok gr⟩)).result =
      some (.server e0) ∧
    RunError.message (.server e0) = "graphql: " ++ e0.Message := by
  refine ⟨?_, rfl⟩
  rw [Run_dispatch _ _ _ _ _ hctx hok]
  cases hm : c.useMultipartForm <;>
    simp [runWithPostFields, runWithJSON, handleEnvelope, herr]

/-- C2 witness: the envelope
with errors `[{message: "bad"}, {message: "worse"}]` yields the server
error "graphql: bad" at a concrete input. -/
theorem Run_first_server_error_witness :
    (Run ⟨"http://e", false⟩ ⟨false, ""⟩ (NewRequest "q") true
        (fun _ => .ok ⟨200, .ok ⟨none, [⟨"bad"⟩, ⟨"worse"⟩]⟩⟩)).result =
      some (.server ⟨"bad"⟩) ∧
    RunError.message (.server ⟨"bad"⟩) = "graphql: " ++ "bad" :=
  Run_first_server_error ⟨"http://e", false⟩ ⟨false, ""⟩ (NewRequest "q")
    true 200 ⟨none, [⟨"bad"⟩, ⟨"worse"⟩]⟩ ⟨"bad"⟩ [⟨"worse"⟩] rfl
    (Or.inl rfl) rfl

/-- C4: for every response whose envelope decodes and whose error sequence
is empty, `Run` returns success, whatever the HTTP status code; the status
code is consulted only on decode failure. -/
theorem Run_success_ignores_status (c : Client) (ctx : Ctx) (req : Request)
    (hasDest : Bool) (code : Nat) (gr : graphResponse)
    (hctx : ctx.done = false)
    (hok : req.files = [] ∨ c.useMultipartForm = true)
    (herr : gr.Errors = []) :
    (Run c ctx req hasDest (fun _ => .ok ⟨code, .ok gr⟩)).result = none := by
  rw [Run_dispatch _ _ _ _ _ hctx hok]
  cases hm : c.useMultipartForm <;>
    simp [runWithPostFields, runWithJSON, handleEnvelope, herr]

/-- C4 witness: a decodable error-free envelope with HTTP status 500 still
succeeds at a concrete input. -/
theorem Run_success_ignores_status_witness :
    (Run ⟨"http://e", false⟩ ⟨false, ""⟩ (NewRequest "q") true
        (fun _ => .ok ⟨500, .ok ⟨some (Json.str "x"), []⟩⟩)).result = none :=
  Run_success_ignores_status ⟨"http://e", false⟩ ⟨false, ""⟩ (NewRequest "q")
    true 500 ⟨some (Json.str "x"), []⟩ rfl (Or.inl rfl) rfl

/-- C5: for every request and every context that is already signaled when
`Run` is invoked, `Run` returns the context's cancellation error and no
HTTP request is issued to the transport. -/
theorem Run_cancelled_no_call (c : Client) (ctx : Ctx) (req : Request)
    (hasDest : Bool) (t : Transport) (hctx : ctx.done = true) :
    (Run c ctx req hasDest t).result = some (.ctxDone ctx.errMsg) ∧
    (Run c ctx req hasDest t).issuedCall = none := by
  constructor <;> simp [Run, hctx]

/-- C5 witness: an already-cancelled context fails fast at a concrete
input. -/
theorem Run_cancelled_no_call_witness :
    (Run ⟨"http://e", false⟩ ⟨true, "context canceled"⟩ (NewRequest "q")
        false (fun _ => .error "boom")).result =
      some (.ctxDone "context canceled") ∧
    (Run ⟨"http://e", false⟩ ⟨true, "context canceled"⟩ (NewRequest "q")
        false (fun _ => .error "boom")).issuedCall = none :=
  Run_cancelled_no_call ⟨"http://e", false⟩ ⟨true, "context canceled"⟩
    (NewRequest "q") false (fun _ => .error "boom") rfl

/-- C6: for every request carrying at least one file attachment, if the
client is not in multipart mode then `Run` returns the configuration error
and no HTTP request is issued to the transport. -/
theorem Run_files_need_multipart (c : Client) (ctx : Ctx) (req : Request)
    (hasDest : Bool) (t : Transport) (hctx : ctx.done = false)
    (hfiles : req.files.length > 0) (hm : c.useMultipartForm = false) :
    (Run c ctx req hasDest t).result =
      some (.config "cannot send files with PostFields option") ∧
    (Run c ctx req hasDest t).issuedCall = none := by
  constructor <;> simp [Run, hctx, hfiles, hm]

/-- C6 witness: one attached file on a non-multipart client fails with the
configuration error at a concrete input. -/
theorem Run_files_need_multipart_witness :
    (Run ⟨"http://e", false⟩ ⟨false, ""⟩
        ((NewRequest "q").File "file" "filename.txt" "This is a file")
        false (fun _ => .error "boom")).result =
      some (.config "cannot send files with PostFields option") ∧
    (Run ⟨"http://e", false⟩ ⟨false, ""⟩
        ((NewRequest "q").File "file" "filename.txt" "This is a file")
        false (fun _ => .error "boom")).issuedCall = none :=
  Run_files_need_multipart ⟨"http://e", false⟩ ⟨false, ""⟩
    ((NewRequest "q").File "file" "filename.txt" "This is a file")
    false (fun _ => .error "boom") rfl (by simp [NewRequest, Request.File])
    rfl

/-- C10: the cancellation check precedes the file/multipart configuration
check: with an already-signaled context and files on a non-multipart
client, `Run` returns the cancellation error, never the configuration
error. -/
theorem Run_cancel_precedes_config (c : Client) (ctx : Ctx) (req : Request)
    (hasDest : Bool) (t : Transport) (hctx : ctx.done = true)
    (hfiles : req.files.length > 0) (hm : c.useMultipartForm = false) :
    (Run c ctx req hasDest t).result = some (.ctxDone ctx.errMsg) ∧
    ∀ m, (Run c ctx req hasDest t).result ≠ some (.config m) := by
  have h1 : (Run c ctx req hasDest t).result =
      some (.ctxDone ctx.errMsg) := by
    simp [Run, hctx]
  refine ⟨h1, fun m h => ?_⟩
  rw [h1] at h
  simp at h

/-- C10 witness: the cancellation error wins over the configuration error
at a concrete input having both problems. -/
theorem Run_cancel_precedes_config_witness :
    (Run ⟨"http://e", false⟩ ⟨true, "context canceled"⟩
        ((NewRequest "q").File "file" "filename.txt" "This is a file")
        false (fun _ => .error "boom")).result =
      some (.ctxDone "context canceled") ∧
    ∀ m, (Run ⟨"http://e", false⟩ ⟨true, "context canceled"⟩
        ((NewRequest "q").File "file" "filename.txt" "This is a file")
        false (fun _ => .error "boom")).result ≠ some (.config m) :=
  Run_cancel_precedes_config ⟨"http://e", false⟩ ⟨true, "context canceled"⟩
    ((NewRequest "q").File "file" "filename.txt" "This is a file")
    false (fun _ => .error "boom") rfl (by simp [NewRequest, Request.File])
    rfl

/-- C3 counterexample: on the envelope
`{"data": "x", "errors": [{"message": "bad"}]}` with HTTP 200, `Run`
returns the server error AND the caller's destination IS populated from the
envelope's data field — the decode step binds `data` to the destination
before the error array is inspected, so the claim that the data payload is
discarded fails at this input. -/
theorem Run_data_not_discarded_cex :
    (Run ⟨"http://e", false⟩ ⟨false, ""⟩ (NewRequest "q") true
        (fun _ => .ok ⟨200, .ok ⟨some (Json.str "x"), [⟨"bad"⟩]⟩⟩)).result =
      some (.server ⟨"bad"⟩) ∧
    (Run ⟨"http://e", false⟩ ⟨false, ""⟩ (NewRequest "q") true
        (fun _ => .ok ⟨200, .ok ⟨some (Json.str "x"), [⟨"bad"⟩]⟩⟩)).destWritten =
      some (Json.str "x") :=
  ⟨rfl, rfl⟩

/-- C3 amended: for every response whose envelope decodes with a non-empty
error sequence, `Run` returns the first server error, discarding subsequent
entries; the envelope's data payload, however, is NOT discarded: it is
decoded into the caller's destination exactly as on success (so destination
state is undefined-but-possibly-populated alongside the error, and callers
must not read it as success). -/
theorem Run_server_error_dest_state (c : Client) (ctx : Ctx) (req : Request)
    (hasDest : Bool) (code : Nat) (gr : graphResponse) (e0 : graphErr)
    (rest : List graphErr) (hctx : ctx.done = false)
    (hok : req.files = [] ∨ c.useMultipartForm = true)
    (herr : gr.Errors = e0 :: rest) :
    (Run c ctx req hasDest (fun _ => .ok ⟨code, .ok gr⟩)).result =
      some (.server e0) ∧
    (Run c ctx req hasDest (fun _ => .ok ⟨code, .ok gr⟩)).destWritten =
      (if hasDest then gr.Data else none) := by
  rw [Run_dispatch _ _ _ _ _ hctx hok]
  cases hm : c.useMultipartForm <;>
    constructor <;>
      simp [runWithPostFields, runWithJSON, handleEnvelope, herr]

/-- C3 amended witness: at a concrete input with both data and errors, the
server error is returned and the destination holds the data payload. -/
theorem Run_server_error_dest_state_witness :
    (Run ⟨"http://e", false⟩ ⟨false, ""⟩ (NewRequest "q") true
        (fun _ => .ok ⟨200, .ok ⟨some (Json.str "y"), [⟨"oops"⟩]⟩⟩)).result =
      some (.server ⟨"oops"⟩) ∧
    (Run ⟨"http://e", false⟩ ⟨false, ""⟩ (NewRequest "q") true
        (fun _ => .ok ⟨200, .ok ⟨some (Json.str "y"), [⟨"oops"⟩]⟩⟩)).destWritten =
      (if true then (some (Json.str "y") : Option Json) else none) :=
  Run_server_error_dest_state ⟨"http://e", false⟩ ⟨false, ""⟩
    (NewRequest "q") true 200 ⟨some (Json.str "y"), [⟨"oops"⟩]⟩ ⟨"oops"⟩ []
    rfl (Or.inl rfl) rfl

/-- C7: in JSON mode the serialized body is
`{"query": <the query string>, "variables": <vj>}` where `vj` is JSON
`null` when no variable was set, and a JSON object holding exactly the
key/value pairs that were set (last write per key wins) otherwise. -/
theorem Run_json_body_variables (c : Client) (ctx : Ctx) (q : String)
    (vs : List (String × Json)) (hasDest : Bool) (t : Transport)
    (hm : c.useMultipartForm = false) (hctx : ctx.done = false) :
    ∃ hdr vj,
      (Run c ctx (applyVars (NewRequest q) vs) hasDest t).issuedCall =
        some ⟨c.endpoint, hdr,
          .jsonBody (Json.obj [("query", Json.str q), ("variables", vj)])⟩ ∧
      (vs = [] → vj = Json.null) ∧
      (vs ≠ [] → ∃ m, vj = Json.obj m ∧
        ∀ k v, ((k, v) ∈ m ↔ lastAssignment vs k = some v)) := by
  have hfiles : (applyVars (NewRequest q) vs).files = [] := by
    rw [applyVars_files]
    rfl
  refine ⟨mergeHeaders jsonBaseHeader (applyVars (NewRequest q) vs).Header,
    varsToJson (applyVars (NewRequest q) vs).vars, ?_, ?_, ?_⟩
  · rw [Run_dispatch _ _ _ _ _ hctx (Or.inl hfiles), hm]
    simp only [Bool.false_eq_true, if_false]
    rw [runWithJSON_issuedCall]
    have hq : (applyVars (NewRequest q) vs).q = q := by
      rw [applyVars_q]
      rfl
    rw [jsonCall, jsonRequestBody, hq]
  · intro hvs
    subst hvs
    rfl
  · intro hvs
    cases vs with
    | nil => exact absurd rfl hvs
    | cons p vs2 =>
        refine ⟨buildVars (p :: vs2), ?_, ?_⟩
        · rw [applyVars_vars_cons]
          rfl
        · intro k v
          exact mem_buildVars (p :: vs2) k v

/-- C7 witness: with the single variable `key := "value"` set, the body is
`{"query": "q", "variables": {"key": "value"}}` up to the stated
characterization, at a concrete input. -/
theorem Run_json_body_variables_witness :
    ∃ hdr vj,
      (Run ⟨"http://e", false⟩ ⟨false, ""⟩
          (applyVars (NewRequest "q") [("key", Json.str "value")]) true
          (fun _ => .error "boom")).issuedCall =
        some ⟨"http://e", hdr,
          .jsonBody (Json.obj [("query", Json.str "q"),
            ("variables", vj)])⟩ ∧
      ([("key", Json.str "value")] = ([] : List (String × Json)) →
        vj = Json.null) ∧
      ([("key", Json.str "value")] ≠ ([] : List (String × Json)) →
        ∃ m, vj = Json.obj m ∧
          ∀ k v, ((k, v) ∈ m ↔
            lastAssignment [("key", Json.str "value")] k = some v)) :=
  Run_json_body_variables ⟨"http://e", false⟩ ⟨false, ""⟩ "q"
    [("key", Json.str "value")] true (fun _ => .error "boom") rfl rfl

/-- C8: in multipart mode the form body is the `query` field holding the
raw query string, then the JSON-serialized `variables` field present iff at
least one variable was set, then one file part per attachment in appended
order, named by its field name and carrying its filename and the full byte
content of its stream. -/
theorem Run_multipart_body_structure (c : Client) (ctx : Ctx) (q : String)
    (vs : List (String × Json)) (fs : List File) (hasDest : Bool)
    (t : Transport) (hm : c.useMultipartForm = true)
    (hctx : ctx.done = false) :
    ∃ hdr,
      (Run c ctx (applyFiles (applyVars (NewRequest q) vs) fs) hasDest
          t).issuedCall =
        some ⟨c.endpoint, hdr, .multipartBody (
          Part.textField "query" q ::
          ((if vs.isEmpty then []
            else [Part.jsonField "variables" (Json.obj (buildVars vs))]) ++
           fs.map (fun f => Part.filePart f.Field f.Name f.R)))⟩ ∧
      ∀ k v, ((k, v) ∈ buildVars vs ↔ lastAssignment vs k = some v) := by
  refine ⟨mergeHeaders multipartBaseHeader
      (applyFiles (applyVars (NewRequest q) vs) fs).Header, ?_,
    fun k v => mem_buildVars vs k v⟩
  rw [Run_dispatch _ _ _ _ _ hctx (Or.inr hm), hm]
  simp only [if_true]
  rw [runWithPostFields_issuedCall]
  have hq : (applyFiles (applyVars (NewRequest q) vs) fs).q = q := by
    rw [applyFiles_q, applyVars_q]
    rfl
  have hfl : (applyFiles (applyVars (NewRequest q) vs) fs).files = fs := by
    rw [applyFiles_files, applyVars_files]
    rfl
  have hv : (applyFiles (applyVars (NewRequest q) vs) fs).vars =
      (applyVars (NewRequest q) vs).vars := applyFiles_vars _ _
  rw [multipartCall, multipartRequestBody, hq, hfl, hv]
  cases vs with
  | nil => rfl
  | cons p vs2 =>
      rw [applyVars_vars_cons]
      have hne : buildVars (p :: vs2) ≠ [] :=
        buildVars_ne_nil _ (List.cons_ne_nil _ _)
      have hlen : 0 < (buildVars (p :: vs2)).length :=
        List.length_pos.mpr hne
      have hgd : (some ((p :: vs2).foldl
          (fun m q2 => mapInsert m q2.1 q2.2)
          ((NewRequest q).vars.getD []))).getD ([] : List (String × Json)) =
          buildVars (p :: vs2) := rfl
      rw [hgd]
      simp [hlen, List.isEmpty_cons]

/-- C8 witness: one variable and one file produce the three-part form body
characterized by the theorem, at a concrete input. -/
theorem Run_multipart_body_structure_witness :
    ∃ hdr,
      (Run ⟨"http://e", true⟩ ⟨false, ""⟩
          (applyFiles (applyVars (NewRequest "query {}")
              [("key", Json.str "value")])
            [⟨"file", "filename.txt", "This is a file"⟩]) true
          (fun _ => .error "boom")).issuedCall =
        some ⟨"http://e", hdr, .multipartBody (
          Part.textField "query" "query {}" ::
          ((if ([("key", Json.str "value")] :
                List (String × Json)).isEmpty then []
            else [Part.jsonField "variables"
              (Json.obj (buildVars [("key", Json.str "value")]))]) ++
           ([⟨"file", "filename.txt", "This is a file"⟩] : List File).map
             (fun f => Part.filePart f.Field f.Name f.R)))⟩ ∧
      ∀ k v, ((k, v) ∈ buildVars [("key", Json.str "value")] ↔
        lastAssignment [("key", Json.str "value")] k = some v) :=
  Run_multipart_body_structure ⟨"http://e", true⟩ ⟨false, ""⟩ "query {}"
    [("key", Json.str "value")] [⟨"file", "filename.txt", "This is a file"⟩]
    true (fun _ => .error "boom") rfl rfl

/-- C9: whenever `Run` issues an HTTP request, every caller-supplied header
value of the Request appears among the outgoing values for its key, and the
transport-set Content-Type and Accept values remain the first (i.e. the
`Get`-visible) values for their keys — the merge is additive and does not
replace them.  Holds for both encoding modes. -/
theorem Run_headers_additive (c : Client) (ctx : Ctx) (req : Request)
    (hasDest : Bool) (t : Transport) (hctx : ctx.done = false)
    (hok : req.files = [] ∨ c.useMultipartForm = true) :
    ∀ call, (Run c ctx req hasDest t).issuedCall = some call →
      (∀ k v, v ∈ headerValues req.Header k →
        v ∈ headerValues call.header k) ∧
      (headerValues call.header "Content-Type").head? =
        some (if c.useMultipartForm then formDataContentType
              else "application/json; charset=utf-8") ∧
      (headerValues call.header "Accept").head? =
        some "application/json; charset=utf-8" := by
  intro call hcall
  rw [Run_dispatch _ _ _ _ _ hctx hok] at hcall
  cases hm : c.useMultipartForm
  · rw [hm] at hcall
    simp only [Bool.false_eq_true, if_false] at hcall
    rw [runWithJSON_issuedCall] at hcall
    obtain rfl := (Option.some_inj.mp hcall).symm
    refine ⟨?_, ?_, ?_⟩
    · intro k v hv
      rw [show (jsonCall c req).header =
            mergeHeaders jsonBaseHeader req.Header from rfl,
        headerValues_mergeHeaders]
      exact List.mem_append.mpr (Or.inr (mem_headerValues_addedValues _ _ _ hv))
    · rw [show (jsonCall c req).header =
            mergeHeaders jsonBaseHeader req.Header from rfl,
        headerValues_mergeHeaders,
        show headerValues jsonBaseHeader "Content-Type" =
          ["application/json; charset=utf-8"] from rfl]
      simp [hm]
    · rw [show (jsonCall c req).header =
            mergeHeaders jsonBaseHeader req.Header from rfl,
        headerValues_mergeHeaders,
        show headerValues jsonBaseHeader "Accept" =
          ["application/json; charset=utf-8"] from rfl]
      simp
  · rw [hm] at hcall
    simp only [if_true] at hcall
    rw [runWithPostFields_issuedCall] at hcall
    obtain rfl := (Option.some_inj.mp hcall).symm
    refine ⟨?_, ?_, ?_⟩
    · intro k v hv
      rw [show (multipartCall c req).header =
            mergeHeaders multipartBaseHeader req.Header from rfl,
        headerValues_mergeHeaders]
      exact List.mem_append.mpr (Or.inr (mem_headerValues_addedValues _ _ _ hv))
    · rw [show (multipartCall c req).header =
            mergeHeaders multipartBaseHeader req.Header from rfl,
        headerValues_mergeHeaders,
        show headerValues multipartBaseHeader "Content-Type" =
          [formDataContentType] from rfl]
      simp [hm]
    · rw [show (multipartCall c req).header =
            mergeHeaders multipartBaseHeader req.Header from rfl,
        headerValues_mergeHeaders,
        show headerValues multipartBaseHeader "Accept" =
          ["application/json; charset=utf-8"] from rfl]
      simp

/-- C9 witness: a request carrying the header `X-Custom: yes` keeps the
transport-set Content-Type and Accept first and carries the caller value,
at a concrete input in JSON mode. -/
theorem Run_headers_additive_witness :
    (∀ k v, v ∈ headerValues [("X-Custom", ["yes"])] k →
      v ∈ headerValues
        (jsonCall ⟨"http://e", false⟩
          ⟨"q", none, [], [("X-Custom", ["yes"])]⟩).header k) ∧
    (headerValues
        (jsonCall ⟨"http://e", false⟩
          ⟨"q", none, [], [("X-Custom", ["yes"])]⟩).header
        "Content-Type").head? =
      some (if (⟨"http://e", false⟩ : Client).useMultipartForm then
        formDataContentType else "application/json; charset=utf-8") ∧
    (headerValues
        (jsonCall ⟨"http://e", false⟩
          ⟨"q", none, [], [("X-Custom", ["yes"])]⟩).header
        "Accept").head? =
      some "application/json; charset=utf-8" :=
  Run_headers_additive ⟨"http://e", false⟩ ⟨false, ""⟩
    ⟨"q", none, [], [("X-Custom", ["yes"])]⟩ false (fun _ => .error "boom")
    rfl (Or.inl rfl)
    (jsonCall ⟨"http://e", false⟩ ⟨"q", none, [], [("X-Custom", ["yes"])]⟩)
    rfl

end Graphql
